import Mathlib

/-!
Verification development for `alembic_utils/statement.py`.

Strings are modelled as `List Char`.  Python's text primitives
(`str.strip`, `str.rstrip(chars)`, `str.split(sep)`, `str.replace`,
`str.partition`, whitespace `str.split()`) are embedded as executable
functions below, and each function of the module is translated from the
source on top of them.  Python exceptions that can escape a function are
modelled with `Except`.
-/

/-- Python's default whitespace set for `str.strip`/`str.split()`
(ASCII fragment: space, tab, newline, carriage return, vertical tab,
form feed). -/
def pyIsSpace (c : Char) : Bool :=
  c = ' ' || c = '\t' || c = '\n' || c = '\r' || c = Char.ofNat 11 || c = Char.ofNat 12

/-- Left half of `str.strip()`. -/
def pyLStripWs (s : List Char) : List Char := s.dropWhile pyIsSpace

/-- Right half of `str.strip()`. -/
def pyRStripWs (s : List Char) : List Char := (s.reverse.dropWhile pyIsSpace).reverse

/-- Python `str.strip()` (trims both ends; the two halves commute, we
trim the left end first). -/
def pyStrip (s : List Char) : List Char := pyRStripWs (pyLStripWs s)

/-- Python `str.lstrip(c)` for a one-character strip set. -/
def pyLStripChar (c : Char) (s : List Char) : List Char := s.dropWhile (· = c)

/-- Python `str.rstrip(c)` for a one-character strip set. -/
def pyRStripChar (c : Char) (s : List Char) : List Char :=
  (s.reverse.dropWhile (· = c)).reverse

/-- Python `str.split(sep)` for a one-character separator: keeps empty
pieces, `"".split(sep) == [""]`. -/
def pySplit (sep : Char) : List Char → List (List Char)
  | [] => [[]]
  | c :: rest =>
    if c = sep then [] :: pySplit sep rest
    else
      match pySplit sep rest with
      | [] => [[c]]
      | w :: ws => (c :: w) :: ws

/-- Python `str.split(sep, 1)` (equivalently the outer pieces of
`str.partition(sep)`) for a one-character separator, as the pair of the
text before and after the first occurrence; when the separator is
absent the whole string is the first component.  The source only uses
it after an `in` test, where the separator is present. -/
def pySplitFirst (sep : Char) : List Char → List Char × List Char
  | [] => ([], [])
  | c :: rest =>
    if c = sep then ([], rest)
    else
      let p := pySplitFirst sep rest
      (c :: p.1, p.2)

/-- Python `sep.join(pieces)`. -/
def pyJoin (sep : List Char) : List (List Char) → List Char
  | [] => []
  | [x] => x
  | x :: y :: xs => x ++ sep ++ pyJoin sep (y :: xs)

/-- Word accumulator for Python `str.split()` (no argument): split on
whitespace runs. -/
def pyWordsAux (s : List Char) : List (List Char) :=
  s.foldr
    (fun c acc =>
      if pyIsSpace c then [] :: acc
      else
        match acc with
        | [] => [[c]]
        | w :: ws => (c :: w) :: ws)
    []

/-- Python `str.split()` (no argument): maximal whitespace-free words. -/
def pyWords (s : List Char) : List (List Char) :=
  (pyWordsAux s).filter (· ≠ [])

/-- Prefix test: `leads p s` holds when `p` is an initial segment of `s`. -/
def leads : List Char → List Char → Bool
  | [], _ => true
  | _ :: _, [] => false
  | a :: as, b :: bs => a = b && leads as bs

/-- Fuelled engine for Python `str.replace`: leftmost, non-overlapping
occurrences of `old` are replaced by `new`, scanning left to right. -/
def pyReplaceF (old new : List Char) : Nat → List Char → List Char
  | 0, s => s
  | _ + 1, [] => []
  | n + 1, c :: rest =>
    if !old.isEmpty && leads old (c :: rest) then
      new ++ pyReplaceF old new n (rest.drop (old.length - 1))
    else
      c :: pyReplaceF old new n rest

/-- Python `str.replace(old, new)` for nonempty `old` (every call site
in the source passes a nonempty `old`; for empty `old` this model
returns the input unchanged). -/
def pyReplace (old new s : List Char) : List Char := pyReplaceF old new s.length s

/-- Literal-string helper for readable statements. -/
def toL (s : String) : List Char := s.toList

/-! ## The module's functions, translated from the source -/

/-- `normalize_whitespace(text, base_whitespace=" ")`:
`base_whitespace.join(text.split()).strip()`. -/
def normalize_whitespace (text base : List Char) : List Char :=
  pyStrip (pyJoin base (pyWords text))

/-- `strip_terminating_semicolon(sql)`: `sql.strip().rstrip(";").strip()`. -/
def strip_terminating_semicolon (sql : List Char) : List Char :=
  pyStrip (pyRStripChar ';' (pyStrip sql))

/-- `strip_double_quotes(sql)`:
`sql = sql.strip().rstrip('"'); return sql.strip().lstrip('"').strip()`. -/
def strip_double_quotes (sql : List Char) : List Char :=
  pyStrip (pyLStripChar '"' (pyStrip (pyRStripChar '"' (pyStrip sql))))

/-- `escape_colon_for_sql(sql)`.  The uuid4 placeholder generated per
call is modelled as the explicit parameter `holder`. -/
def escape_colon_for_sql (holder sql : List Char) : List Char :=
  pyReplace holder [':', ':']
    (pyReplace [':'] ['\\', ':']
      (pyReplace [':', ':'] holder sql))

/-- `escape_colon_for_plpgsql(sql)`.  The three uuid4 placeholders are
modelled as the explicit parameters `h1`, `h2`, `h3` (for `::`, `:=`
and `\:` respectively). -/
def escape_colon_for_plpgsql (h1 h2 h3 sql : List Char) : List Char :=
  pyReplace h1 [':', ':']
    (pyReplace h2 [':', '=']
      (pyReplace h3 ['\\', ':']
        (pyReplace [':'] ['\\', ':']
          (pyReplace ['\\', ':'] h3
            (pyReplace [':', '='] h2
              (pyReplace [':', ':'] h1 sql))))))

/-- Value side of the `StorageParameter` union `str | int | float`.
The only `float(...)` call in the source receives a single character,
so the only reachable floats are the exact whole numbers `0.0 .. 9.0`;
`float d` records such a value by its integer part `d`. -/
inductive PyVal where
  | str : List Char → PyVal
  | int : Int → PyVal
  | float : Int → PyVal
deriving DecidableEq

/-- `StorageParameter = Union[str, tuple[str, Union[str, int, float]]]`. -/
inductive StorageParameter where
  | flag : List Char → StorageParameter
  | pair : List Char → PyVal → StorageParameter
deriving DecidableEq

/-- Exceptions that can escape `parse_storage_parameters` (the
`except ValueError` handlers do not catch `IndexError`). -/
inductive PyError where
  | indexError : PyError
deriving DecidableEq

deriving instance DecidableEq for Except

/-- ASCII decimal digit test. -/
def pyDigit (c : Char) : Bool := '0' ≤ c && c ≤ '9'

/-- Python `int(c)` for a one-character string `c` (the only shape the
source ever passes): succeeds exactly on a digit. -/
def pyIntOfChar (c : Char) : Option Int :=
  if pyDigit c then some ((c.toNat : Int) - ('0'.toNat : Int)) else none

/-- Python `float(c)` for a one-character string `c`: also succeeds
exactly on a digit (no one-character float literal is accepted beyond
digits), with the digit as exact value. -/
def pyFloatOfChar (c : Char) : Option Int :=
  if pyDigit c then some ((c.toNat : Int) - ('0'.toNat : Int)) else none

/-- Rendering of a value in `f"{param[0]}={param[1]}"`. -/
def renderVal : PyVal → List Char
  | .str s => s
  | .int n => (toString n).toList
  | .float d => (toString d).toList ++ ['.', '0']

/-- Rendering of one parameter inside `format_storage_parameters_clause`. -/
def renderParam : StorageParameter → List Char
  | .flag w => w
  | .pair k v => k ++ '=' :: renderVal v

/-- `format_storage_parameters_clause(storage_parameters)`. -/
def format_storage_parameters_clause : Option (List StorageParameter) → List Char
  | none => []
  | some [] => []
  | some (p :: ps) =>
    toL " WITH (" ++ pyJoin (toL ", ") ((p :: ps).map renderParam) ++ [')']

/-- Loop body of `parse_storage_parameters`: one comma-separated part.
Note the source reads `part[0]` and `part[1]` (characters of the raw
part), not the components of `part.split("=", 1)`; `part[1]` raises
`IndexError` when the part is shorter than two characters. -/
def parsePart (part : List Char) : Except PyError StorageParameter :=
  if '=' ∈ part then
    match part[0]?, part[1]? with
    | some c0, some c1 =>
      match pyIntOfChar c1 with
      | some n => .ok (.pair [c0] (.int n))
      | none =>
        match pyFloatOfChar c1 with
        | some d => .ok (.pair [c0] (.float d))
        | none =>
          let sp := pySplitFirst '=' part
          .ok (.pair (pyStrip sp.1) (.str (pyStrip sp.2)))
    | _, _ => .error .indexError
  else
    .ok (.flag (pyStrip part))

/-- The parts loop of `parse_storage_parameters`, failing at the first
part that raises. -/
def parseParts : List (List Char) → Except PyError (List StorageParameter)
  | [] => .ok []
  | p :: rest => do
    let it ← parsePart p
    let l ← parseParts rest
    .ok (it :: l)

/-- `parse_storage_parameters(storage_parameters)`. -/
def parse_storage_parameters (s : List Char) : Except PyError (List StorageParameter) :=
  parseParts (pySplit ',' s)

/-- `coerce_to_quoted(text)`. -/
def coerce_to_quoted (text : List Char) : List Char :=
  if '.' ∈ text then
    let p := pySplitFirst '.' text
    '"' :: strip_double_quotes p.1 ++ '"' :: '.' :: '"' :: strip_double_quotes p.2 ++ ['"']
  else
    '"' :: strip_double_quotes text ++ ['"']

/-- `coerce_to_unquoted(text)`: `"".join(text.split('"'))`, i.e. drop
every double-quote character. -/
def coerce_to_unquoted (text : List Char) : List Char :=
  text.filter (· ≠ '"')

-- Sanity examples against the repository's own doctest/test values.
example : coerce_to_quoted (toL "public.table") = toL "\"public\".\"table\"" := by decide
example : coerce_to_quoted (toL "\"public\".table") = toL "\"public\".\"table\"" := by decide
example : coerce_to_unquoted (toL "\"public\".table") = toL "public.table" := by decide
example : format_storage_parameters_clause
    (some [.flag (toL "param1"), .pair (toL "param2") (.int 80),
           .pair (toL "param3") (.str (toL "'test'"))]) =
    toL " WITH (param1, param2=80, param3='test')" := by decide
example : parse_storage_parameters (toL "param1,param2") =
    .ok [.flag (toL "param1"), .flag (toL "param2")] := by decide
example : normalize_whitespace (toL "  a \t b  ") [' '] = toL "a b" := by decide
example : strip_terminating_semicolon (toL " select 1 ;; ") = toL "select 1" := by decide


/-! ## Specification-side scanners for the escaping passes

`escSqlSpec` and `escPlpgSpec` state, as direct one-pass scanners, what
the spec says the placeholder-substitution passes compute: doubled
markers (and for plpgsql also `:=` and pre-escaped `\:`) survive
unmodified, every other single `:` gains one backslash.  The theorems
below prove that the translated functions coincide with these scanners
whenever the placeholders are fresh. -/

def escSqlSpec : List Char → List Char
  | [] => []
  | [c] => if c = ':' then ['\\', ':'] else [c]
  | c :: c2 :: rest =>
    if c = ':' then
      if c2 = ':' then ':' :: ':' :: escSqlSpec rest
      else '\\' :: ':' :: escSqlSpec (c2 :: rest)
    else c :: escSqlSpec (c2 :: rest)

def escPlpgSpec : List Char → List Char
  | [] => []
  | [c] => if c = ':' then ['\\', ':'] else [c]
  | c :: c2 :: rest =>
    if c = ':' then
      if c2 = ':' then ':' :: ':' :: escPlpgSpec rest
      else if c2 = '=' then ':' :: '=' :: escPlpgSpec rest
      else '\\' :: ':' :: escPlpgSpec (c2 :: rest)
    else if c = '\\' ∧ c2 = ':' then
      match rest with
      | [] => ['\\', ':']
      | c3 :: rest2 =>
        if c3 = ':' then '\\' :: ':' :: ':' :: escPlpgSpec rest2
        else if c3 = '=' then '\\' :: ':' :: '=' :: escPlpgSpec rest2
        else '\\' :: ':' :: escPlpgSpec (c3 :: rest2)
    else c :: escPlpgSpec (c2 :: rest)

/-- Freshness of one placeholder for an input: nonempty, free of the
marker characters the passes manipulate, and absent (character-wise)
from the input.  This models the intent of the per-call `uuid4()`
token. -/
def FreshHolder (h s : List Char) : Prop :=
  h ≠ [] ∧ ':' ∉ h ∧ '\\' ∉ h ∧ '=' ∉ h ∧ ∀ c ∈ h, c ∉ s

instance (h s : List Char) : Decidable (FreshHolder h s) := by
  unfold FreshHolder; infer_instance

/-- Freshness of the three plpgsql placeholders: each fresh for the
input and character-disjoint from the placeholders substituted after
it. -/
def FreshTriple (h1 h2 h3 s : List Char) : Prop :=
  FreshHolder h1 s ∧ FreshHolder h2 s ∧ FreshHolder h3 s ∧
  (∀ c ∈ h2, c ∉ h1) ∧ (∀ c ∈ h3, c ∉ h1) ∧ (∀ c ∈ h3, c ∉ h2)

instance (h1 h2 h3 s : List Char) : Decidable (FreshTriple h1 h2 h3 s) := by
  unfold FreshTriple; infer_instance

theorem freshHolder_tail {h c s} (hf : FreshHolder h (c :: s)) : FreshHolder h s := by
  obtain ⟨h0, h1, h2, h3, h4⟩ := hf
  exact ⟨h0, h1, h2, h3, fun x hx => fun hmem => (h4 x hx) (List.mem_cons_of_mem _ hmem)⟩

theorem freshTriple_tail {h1 h2 h3 c s} (hf : FreshTriple h1 h2 h3 (c :: s)) :
    FreshTriple h1 h2 h3 s := by
  obtain ⟨f1, f2, f3, d1, d2, d3⟩ := hf
  exact ⟨freshHolder_tail f1, freshHolder_tail f2, freshHolder_tail f3, d1, d2, d3⟩

/-! ## Step lemmas for pyReplace -/

theorem pyReplaceF_eq (old new : List Char) :
    ∀ (m : Nat) (s : List Char), s.length ≤ m →
      pyReplaceF old new m s = pyReplace old new s := by
  intro m
  induction m using Nat.strong_induction_on with
  | _ m ih =>
    intro s hs
    cases s with
    | nil => cases m <;> rfl
    | cons c rest =>
      cases m with
      | zero => simp at hs
      | succ m' =>
        have hr : rest.length ≤ m' := by simpa using hs
        show pyReplaceF old new (m' + 1) (c :: rest) = pyReplace old new (c :: rest)
        rw [pyReplace]
        simp only [List.length_cons]
        simp only [pyReplaceF]
        by_cases hcond : (!old.isEmpty && leads old (c :: rest)) = true
        · rw [if_pos hcond, if_pos hcond]
          have hd : (rest.drop (old.length - 1)).length ≤ rest.length := by
            simp [List.length_drop]
          rw [ih m' (Nat.lt_succ_self m') _ (le_trans hd hr),
              ih rest.length (Nat.lt_succ_of_le hr) _ hd]
        · rw [if_neg hcond, if_neg hcond]
          rw [ih m' (Nat.lt_succ_self m') _ hr,
              ih rest.length (Nat.lt_succ_of_le hr) _ (le_refl _)]

theorem pyReplace_nil (old new : List Char) : pyReplace old new [] = [] := rfl

theorem pyReplace_cons_pos (old new : List Char) (c : Char) (rest : List Char)
    (h : (!old.isEmpty && leads old (c :: rest)) = true) :
    pyReplace old new (c :: rest) =
      new ++ pyReplace old new (rest.drop (old.length - 1)) := by
  rw [pyReplace]
  simp only [List.length_cons, pyReplaceF]
  rw [if_pos h, pyReplaceF_eq old new rest.length _ (by simp [List.length_drop])]

theorem pyReplace_cons_neg (old new : List Char) (c : Char) (rest : List Char)
    (h : (!old.isEmpty && leads old (c :: rest)) = false) :
    pyReplace old new (c :: rest) = c :: pyReplace old new rest := by
  rw [pyReplace]
  simp only [List.length_cons, pyReplaceF]
  rw [if_neg (by simp [h]), pyReplace]

theorem pyReplace_miss_head (old new : List Char) (c : Char) (s : List Char)
    (h : old.head? ≠ some c) :
    pyReplace old new (c :: s) = c :: pyReplace old new s := by
  apply pyReplace_cons_neg
  cases old with
  | nil => rfl
  | cons o os =>
    have : o ≠ c := by simpa using h
    simp [leads, this]

theorem pyReplace_one_hit (a : Char) (new X : List Char) :
    pyReplace [a] new (a :: X) = new ++ pyReplace [a] new X := by
  rw [pyReplace_cons_pos _ _ _ _ (by simp [leads])]
  simp

theorem pyReplace_two_hit (a b : Char) (new X : List Char) :
    pyReplace [a, b] new (a :: b :: X) = new ++ pyReplace [a, b] new X := by
  rw [pyReplace_cons_pos _ _ _ _ (by simp [leads])]
  simp

theorem leads_two_iff (a b c : Char) (s : List Char) :
    leads [a, b] (c :: s) = true ↔ (a = c ∧ s.head? = some b) := by
  cases s with
  | nil => simp [leads]
  | cons x xs => simp [leads]; aesop

theorem pyReplace_two_miss (a b : Char) (new : List Char) (c : Char) (s : List Char)
    (h : ¬(c = a ∧ s.head? = some b)) :
    pyReplace [a, b] new (c :: s) = c :: pyReplace [a, b] new s := by
  apply pyReplace_cons_neg
  have hn : leads [a, b] (c :: s) = false := by
    rw [Bool.eq_false_iff]
    intro hl
    obtain ⟨rfl, hh⟩ := (leads_two_iff _ _ _ _).1 hl
    exact h ⟨rfl, hh⟩
  simp [hn]

theorem leads_self_append (l b : List Char) : leads l (l ++ b) = true := by
  induction l with
  | nil => rfl
  | cons x xs ih => simp [leads, ih]

theorem pyReplace_block (o : Char) (os new b : List Char) :
    pyReplace (o :: os) new ((o :: os) ++ b) = new ++ pyReplace (o :: os) new b := by
  have hc : (!(o :: os).isEmpty && leads (o :: os) (o :: (os ++ b))) = true := by
    have hl := leads_self_append (o :: os) b
    rw [List.cons_append] at hl
    simp [hl]
  rw [List.cons_append, pyReplace_cons_pos _ _ _ _ hc]
  have hd : (os ++ b).drop ((o :: os).length - 1) = b := by
    simp [List.drop_left]
  rw [hd]

theorem pyReplace_skip (o : Char) (os new : List Char) :
    ∀ (a b : List Char), o ∉ a →
      pyReplace (o :: os) new (a ++ b) = a ++ pyReplace (o :: os) new b := by
  intro a
  induction a with
  | nil => intro b _; rfl
  | cons c a' ih =>
    intro b hna
    have hoc : o ≠ c := fun h => hna (h ▸ List.mem_cons_self _ _)
    rw [List.cons_append, pyReplace_miss_head _ _ _ _ (by simpa using hoc),
        ih b (fun hmem => hna (List.mem_cons_of_mem _ hmem)), List.cons_append]

theorem pyReplace_head_cases (old new s : List Char) (hnew : new ≠ []) :
    (pyReplace old new s).head? = s.head? ∨ (pyReplace old new s).head? = new.head? := by
  cases s with
  | nil => left; rw [pyReplace_nil]
  | cons c rest =>
    by_cases hb : (!old.isEmpty && leads old (c :: rest)) = true
    · right
      rw [pyReplace_cons_pos _ _ _ _ hb]
      cases new with
      | nil => exact absurd rfl hnew
      | cons x xs => rfl
    · left
      rw [pyReplace_cons_neg _ _ _ _ (by simpa using hb)]
      rfl

theorem pyReplace_head_safe (old new s : List Char) (bad : Char) (hnew : new ≠ [])
    (hs : s.head? ≠ some bad) (hn : new.head? ≠ some bad) :
    (pyReplace old new s).head? ≠ some bad := by
  rcases pyReplace_head_cases old new s hnew with h | h <;> rw [h] <;> assumption

/-! ## escape_colon_for_sql refines the scanner under a fresh placeholder -/

theorem freshHolder_parts {h s : List Char} (hf : FreshHolder h s) :
    ∃ o os, h = o :: os ∧ ':' ∉ h ∧ '\\' ∉ h ∧ '=' ∉ h ∧ ∀ c ∈ h, c ∉ s := by
  obtain ⟨h0, h1, h2, h3, h4⟩ := hf
  cases h with
  | nil => exact absurd rfl h0
  | cons o os => exact ⟨o, os, rfl, h1, h2, h3, h4⟩

theorem escSql_spec_aux (h : List Char) :
    ∀ (n : Nat) (sql : List Char), sql.length ≤ n → FreshHolder h sql →
      escape_colon_for_sql h sql = escSqlSpec sql := by
  intro n
  induction n with
  | zero =>
    intro sql hlen _
    have hnil : sql = [] := List.length_eq_zero.mp (Nat.le_zero.mp hlen)
    subst hnil; rfl
  | succ n ih =>
    intro sql hlen hf
    obtain ⟨o, os, ho, hcol, hbs, heqm, hnotin⟩ := freshHolder_parts hf
    subst ho
    have homem : o ∈ o :: os := List.mem_cons_self o os
    have hoc : o ≠ ':' := fun he => hcol (he ▸ homem)
    have hob : o ≠ '\\' := fun he => hbs (he ▸ homem)
    cases sql with
    | nil => rfl
    | cons c rest =>
      have hlen' : rest.length ≤ n := by simpa using hlen
      have hf' : FreshHolder (o :: os) rest := freshHolder_tail hf
      have hoc2 : o ≠ c := fun he => (hnotin o homem) (he ▸ List.mem_cons_self c rest)
      by_cases hc : c = ':'
      · subst hc
        cases rest with
        | nil =>
          simp only [escape_colon_for_sql]
          rw [pyReplace_two_miss ':' ':' (o :: os) ':' [] (by simp),
              pyReplace_nil, pyReplace_one_hit, pyReplace_nil, List.append_nil,
              pyReplace_miss_head _ _ _ _ (by simpa using hob),
              pyReplace_miss_head _ _ _ _ (by simpa using hoc),
              pyReplace_nil]
          simp [escSqlSpec]
        | cons c2 rest2 =>
          by_cases hc2 : c2 = ':'
          · subst hc2
            have hlen2 : rest2.length ≤ n := by
              simp only [List.length_cons] at hlen; omega
            have hf2 : FreshHolder (o :: os) rest2 := freshHolder_tail hf'
            simp only [escape_colon_for_sql]
            rw [pyReplace_two_hit ':' ':' (o :: os) rest2,
                pyReplace_skip ':' [] ['\\', ':'] (o :: os) _ hcol,
                pyReplace_block o os [':', ':'] _]
            show [':', ':'] ++ escape_colon_for_sql (o :: os) rest2 = _
            rw [ih rest2 hlen2 hf2]
            simp [escSqlSpec]
          · simp only [escape_colon_for_sql]
            rw [pyReplace_two_miss ':' ':' (o :: os) ':' (c2 :: rest2)
                  (by simp; intro h'; exact absurd h' hc2),
                pyReplace_one_hit ':' ['\\', ':'] _,
                pyReplace_skip o os [':', ':'] ['\\', ':'] _ (by simp [hob, hoc])]
            show ['\\', ':'] ++ escape_colon_for_sql (o :: os) (c2 :: rest2) = _
            rw [ih (c2 :: rest2) hlen' hf']
            simp [escSqlSpec, hc2]
      · simp only [escape_colon_for_sql]
        rw [pyReplace_two_miss ':' ':' (o :: os) c rest (fun hp => hc hp.1),
            pyReplace_miss_head [':'] ['\\', ':'] c _ (by simpa using (Ne.symm hc)),
            pyReplace_miss_head (o :: os) [':', ':'] c _ (by simpa using hoc2)]
        show c :: escape_colon_for_sql (o :: os) rest = _
        rw [ih rest hlen' hf']
        cases rest <;> simp [escSqlSpec, hc]

theorem escSql_spec_of_fresh (h sql : List Char) (hf : FreshHolder h sql) :
    escape_colon_for_sql h sql = escSqlSpec sql :=
  escSql_spec_aux h sql.length sql (le_refl _) hf

/-! ## escape_colon_for_plpgsql refines its scanner under fresh placeholders -/

theorem escPlpgSpec_nil : escPlpgSpec [] = [] := rfl

theorem escPlpgSpec_colon1 : escPlpgSpec [':'] = ['\\', ':'] := by
  rw [escPlpgSpec.eq_def]; simp

theorem escPlpgSpec_one (c : Char) (h : c ≠ ':') : escPlpgSpec [c] = [c] := by
  rw [escPlpgSpec.eq_def]; simp [h]

theorem escPlpgSpec_dc (r : List Char) :
    escPlpgSpec (':' :: ':' :: r) = ':' :: ':' :: escPlpgSpec r := by
  rw [escPlpgSpec.eq_def]; simp

theorem escPlpgSpec_as (r : List Char) :
    escPlpgSpec (':' :: '=' :: r) = ':' :: '=' :: escPlpgSpec r := by
  rw [escPlpgSpec.eq_def]; simp

theorem escPlpgSpec_sc (c2 : Char) (r : List Char) (h : c2 ≠ ':') (h' : c2 ≠ '=') :
    escPlpgSpec (':' :: c2 :: r) = '\\' :: ':' :: escPlpgSpec (c2 :: r) := by
  rw [escPlpgSpec.eq_def]; simp [h, h']

theorem escPlpgSpec_e2 : escPlpgSpec ['\\', ':'] = ['\\', ':'] := by
  rw [escPlpgSpec.eq_def]; simp

theorem escPlpgSpec_e3c (r : List Char) :
    escPlpgSpec ('\\' :: ':' :: ':' :: r) = '\\' :: ':' :: ':' :: escPlpgSpec r := by
  rw [escPlpgSpec.eq_def]; simp

theorem escPlpgSpec_e3e (r : List Char) :
    escPlpgSpec ('\\' :: ':' :: '=' :: r) = '\\' :: ':' :: '=' :: escPlpgSpec r := by
  rw [escPlpgSpec.eq_def]; simp

theorem escPlpgSpec_e3o (c3 : Char) (r : List Char) (h : c3 ≠ ':') (h' : c3 ≠ '=') :
    escPlpgSpec ('\\' :: ':' :: c3 :: r) = '\\' :: ':' :: escPlpgSpec (c3 :: r) := by
  rw [escPlpgSpec.eq_def]; simp [h, h']

theorem escPlpgSpec_other (c : Char) (r : List Char) (h : c ≠ ':')
    (h2 : ¬(c = '\\' ∧ r.head? = some ':')) :
    escPlpgSpec (c :: r) = c :: escPlpgSpec r := by
  cases r with
  | nil => rw [escPlpgSpec.eq_def]; simp [h, escPlpgSpec_nil]
  | cons c2 r2 =>
    have h3 : ¬(c = '\\' ∧ c2 = ':') := by
      rintro ⟨rfl, rfl⟩; exact h2 ⟨rfl, rfl⟩
    rw [escPlpgSpec.eq_def]; simp [h, h3]

theorem escPlpg_spec_aux (h1 h2 h3 : List Char) :
    ∀ (n : Nat) (sql : List Char), sql.length ≤ n → FreshTriple h1 h2 h3 sql →
      escape_colon_for_plpgsql h1 h2 h3 sql = escPlpgSpec sql := by
  intro n
  induction n with
  | zero =>
    intro sql hlen _
    have hnil : sql = [] := List.length_eq_zero.mp (Nat.le_zero.mp hlen)
    subst hnil; rfl
  | succ n ih =>
    intro sql hlen hf
    obtain ⟨f1, f2, f3, d21, d31, d32⟩ := hf
    obtain ⟨o1, os1, ho1, hcol1, hbs1, heq1, hin1⟩ := freshHolder_parts f1
    obtain ⟨o2, os2, ho2, hcol2, hbs2, heq2, hin2⟩ := freshHolder_parts f2
    obtain ⟨o3, os3, ho3, hcol3, hbs3, heq3, hin3⟩ := freshHolder_parts f3
    subst ho1; subst ho2; subst ho3
    have hm1 : o1 ∈ o1 :: os1 := List.mem_cons_self o1 os1
    have hm2 : o2 ∈ o2 :: os2 := List.mem_cons_self o2 os2
    have hm3 : o3 ∈ o3 :: os3 := List.mem_cons_self o3 os3
    have h1c : o1 ≠ ':' := fun he => hcol1 (he ▸ hm1)
    have h1b : o1 ≠ '\\' := fun he => hbs1 (he ▸ hm1)
    have h1e : o1 ≠ '=' := fun he => heq1 (he ▸ hm1)
    have h2c : o2 ≠ ':' := fun he => hcol2 (he ▸ hm2)
    have h2b : o2 ≠ '\\' := fun he => hbs2 (he ▸ hm2)
    have h2e : o2 ≠ '=' := fun he => heq2 (he ▸ hm2)
    have h3c : o3 ≠ ':' := fun he => hcol3 (he ▸ hm3)
    have h3b : o3 ≠ '\\' := fun he => hbs3 (he ▸ hm3)
    have h3e : o3 ≠ '=' := fun he => heq3 (he ▸ hm3)
    have hn21 : o2 ∉ o1 :: os1 := d21 o2 hm2
    have hn31 : o3 ∉ o1 :: os1 := d31 o3 hm3
    have hn32 : o3 ∉ o2 :: os2 := d32 o3 hm3
    cases sql with
    | nil => rfl
    | cons c rest =>
      have hlen' : rest.length ≤ n := by simpa using hlen
      have hft : FreshTriple (o1 :: os1) (o2 :: os2) (o3 :: os3) rest :=
        freshTriple_tail ⟨f1, f2, f3, d21, d31, d32⟩
      have hc1m : o1 ≠ c := fun he => (hin1 o1 hm1) (he ▸ List.mem_cons_self c rest)
      have hc2m : o2 ≠ c := fun he => (hin2 o2 hm2) (he ▸ List.mem_cons_self c rest)
      have hc3m : o3 ≠ c := fun he => (hin3 o3 hm3) (he ▸ List.mem_cons_self c rest)
      by_cases hc : c = ':'
      · subst hc
        cases rest with
        | nil =>
          simp only [escape_colon_for_plpgsql]
          rw [pyReplace_two_miss ':' ':' _ ':' [] (by simp), pyReplace_nil,
              pyReplace_two_miss ':' '=' _ ':' [] (by simp), pyReplace_nil,
              pyReplace_two_miss '\\' ':' _ ':' [] (by simp),
              pyReplace_nil,
              pyReplace_one_hit, pyReplace_nil, List.append_nil,
              pyReplace_miss_head _ _ '\\' _ (by simpa using h3b),
              pyReplace_miss_head _ _ ':' _ (by simpa using h3c), pyReplace_nil,
              pyReplace_miss_head _ _ '\\' _ (by simpa using h2b),
              pyReplace_miss_head _ _ ':' _ (by simpa using h2c), pyReplace_nil,
              pyReplace_miss_head _ _ '\\' _ (by simpa using h1b),
              pyReplace_miss_head _ _ ':' _ (by simpa using h1c), pyReplace_nil]
          simp [escPlpgSpec_colon1]
        | cons c2 rest2 =>
          have hlen2 : rest2.length ≤ n := by
            simp only [List.length_cons] at hlen; omega
          have hft2 : FreshTriple (o1 :: os1) (o2 :: os2) (o3 :: os3) rest2 :=
            freshTriple_tail hft
          by_cases hc2 : c2 = ':'
          · subst hc2
            simp only [escape_colon_for_plpgsql]
            rw [pyReplace_two_hit ':' ':' (o1 :: os1) rest2,
                pyReplace_skip ':' ['='] (o2 :: os2) _ _ hcol1,
                pyReplace_skip '\\' [':'] (o3 :: os3) _ _ hbs1,
                pyReplace_skip ':' [] ['\\', ':'] _ _ hcol1,
                pyReplace_skip o3 os3 ['\\', ':'] _ _ hn31,
                pyReplace_skip o2 os2 [':', '='] _ _ hn21,
                pyReplace_block o1 os1 [':', ':'] _]
            show [':', ':'] ++ escape_colon_for_plpgsql (o1 :: os1) (o2 :: os2) (o3 :: os3) rest2 = _
            rw [ih rest2 hlen2 hft2]
            simp [escPlpgSpec_dc]
          · by_cases hc2e : c2 = '='
            · subst hc2e
              simp only [escape_colon_for_plpgsql]
              rw [pyReplace_two_miss ':' ':' (o1 :: os1) ':' ('=' :: rest2) (by simp),
                  pyReplace_miss_head [':', ':'] _ '=' _ (by simp),
                  pyReplace_two_hit ':' '=' (o2 :: os2) _,
                  pyReplace_skip '\\' [':'] (o3 :: os3) _ _ hbs2,
                  pyReplace_skip ':' [] ['\\', ':'] _ _ hcol2,
                  pyReplace_skip o3 os3 ['\\', ':'] _ _ hn32,
                  pyReplace_block o2 os2 [':', '='] _,
                  pyReplace_skip o1 os1 [':', ':'] [':', '='] _ (by simp [h1c, h1e])]
              show [':', '='] ++ escape_colon_for_plpgsql (o1 :: os1) (o2 :: os2) (o3 :: os3) rest2 = _
              rw [ih rest2 hlen2 hft2]
              simp [escPlpgSpec_as]
            · have hsafe1 : (pyReplace [':', ':'] (o1 :: os1) (c2 :: rest2)).head? ≠ some '=' :=
                pyReplace_head_safe _ _ _ '=' (by simp)
                  (by simpa using fun he : c2 = '=' => hc2e he)
                  (by simpa using h1e)
              simp only [escape_colon_for_plpgsql]
              rw [pyReplace_two_miss ':' ':' (o1 :: os1) ':' (c2 :: rest2)
                    (by simp; intro h'; exact absurd h' hc2),
                  pyReplace_two_miss ':' '=' (o2 :: os2) ':' _
                    (fun hp => hsafe1 hp.2),
                  pyReplace_two_miss '\\' ':' (o3 :: os3) ':' _ (by simp),
                  pyReplace_one_hit ':' ['\\', ':'] _,
                  pyReplace_skip o3 os3 ['\\', ':'] ['\\', ':'] _ (by simp [h3b, h3c]),
                  pyReplace_skip o2 os2 [':', '='] ['\\', ':'] _ (by simp [h2b, h2c]),
                  pyReplace_skip o1 os1 [':', ':'] ['\\', ':'] _ (by simp [h1b, h1c])]
              show ['\\', ':'] ++ escape_colon_for_plpgsql (o1 :: os1) (o2 :: os2) (o3 :: os3) (c2 :: rest2) = _
              rw [ih (c2 :: rest2) hlen' hft]
              simp [escPlpgSpec_sc c2 rest2 hc2 hc2e]
      · by_cases hcb : c = '\\' ∧ rest.head? = some ':'
        · obtain ⟨rfl, hrh⟩ := hcb
          cases rest with
          | nil => simp at hrh
          | cons r1 rest2 =>
            have hr1 : r1 = ':' := by simpa using hrh
            subst hr1
            have hlen2 : rest2.length ≤ n := by
              simp only [List.length_cons] at hlen; omega
            have hft2 : FreshTriple (o1 :: os1) (o2 :: os2) (o3 :: os3) rest2 :=
              freshTriple_tail hft
            cases rest2 with
            | nil =>
              simp only [escape_colon_for_plpgsql]
              rw [pyReplace_miss_head [':', ':'] _ '\\' _ (by simp),
                  pyReplace_two_miss ':' ':' (o1 :: os1) ':' [] (by simp), pyReplace_nil,
                  pyReplace_miss_head [':', '='] _ '\\' _ (by simp),
                  pyReplace_two_miss ':' '=' (o2 :: os2) ':' [] (by simp), pyReplace_nil,
                  pyReplace_two_hit '\\' ':' (o3 :: os3) [], pyReplace_nil,
                  pyReplace_skip ':' [] ['\\', ':'] (o3 :: os3) [] hcol3, pyReplace_nil,
                  pyReplace_block o3 os3 ['\\', ':'] [], pyReplace_nil,
                  pyReplace_skip o2 os2 [':', '='] ['\\', ':'] [] (by simp [h2b, h2c]),
                  pyReplace_nil,
                  pyReplace_skip o1 os1 [':', ':'] ['\\', ':'] [] (by simp [h1b, h1c]),
                  pyReplace_nil]
              simp [escPlpgSpec_e2]
            | cons c3 rest3 =>
              have hlen3 : rest3.length ≤ n := by
                simp only [List.length_cons] at hlen; omega
              have hft3 : FreshTriple (o1 :: os1) (o2 :: os2) (o3 :: os3) rest3 :=
                freshTriple_tail hft2
              by_cases hc3 : c3 = ':'
              · subst hc3
                simp only [escape_colon_for_plpgsql]
                rw [pyReplace_miss_head [':', ':'] _ '\\' _ (by simp),
                    pyReplace_two_hit ':' ':' (o1 :: os1) rest3,
                    pyReplace_miss_head [':', '='] _ '\\' _ (by simp),
                    pyReplace_skip ':' ['='] (o2 :: os2) _ _ hcol1,
                    pyReplace_two_miss '\\' ':' (o3 :: os3) '\\' _ (by
                      rintro ⟨-, hh⟩
                      rw [List.cons_append] at hh
                      simp at hh
                      exact h1c hh),
                    pyReplace_skip '\\' [':'] (o3 :: os3) _ _ hbs1,
                    pyReplace_miss_head [':'] _ '\\' _ (by simp),
                    pyReplace_skip ':' [] ['\\', ':'] _ _ hcol1,
                    pyReplace_miss_head (o3 :: os3) _ '\\' _ (by simpa using h3b),
                    pyReplace_skip o3 os3 ['\\', ':'] _ _ hn31,
                    pyReplace_miss_head (o2 :: os2) _ '\\' _ (by simpa using h2b),
                    pyReplace_skip o2 os2 [':', '='] _ _ hn21,
                    pyReplace_miss_head (o1 :: os1) _ '\\' _ (by simpa using h1b),
                    pyReplace_block o1 os1 [':', ':'] _]
                show '\\' :: ([':', ':'] ++ escape_colon_for_plpgsql (o1 :: os1) (o2 :: os2) (o3 :: os3) rest3) = _
                rw [ih rest3 hlen3 hft3]
                simp [escPlpgSpec_e3c]
              · by_cases hc3e : c3 = '='
                · subst hc3e
                  simp only [escape_colon_for_plpgsql]
                  rw [pyReplace_miss_head [':', ':'] _ '\\' _ (by simp),
                      pyReplace_two_miss ':' ':' (o1 :: os1) ':' ('=' :: rest3) (by simp),
                      pyReplace_miss_head [':', ':'] _ '=' _ (by simp),
                      pyReplace_miss_head [':', '='] _ '\\' _ (by simp),
                      pyReplace_two_hit ':' '=' (o2 :: os2) _,
                      pyReplace_two_miss '\\' ':' (o3 :: os3) '\\' _ (by
                        rintro ⟨-, hh⟩
                        rw [List.cons_append] at hh
                        simp at hh
                        exact h2c hh),
                      pyReplace_skip '\\' [':'] (o3 :: os3) _ _ hbs2,
                      pyReplace_miss_head [':'] _ '\\' _ (by simp),
                      pyReplace_skip ':' [] ['\\', ':'] _ _ hcol2,
                      pyReplace_miss_head (o3 :: os3) _ '\\' _ (by simpa using h3b),
                      pyReplace_skip o3 os3 ['\\', ':'] _ _ hn32,
                      pyReplace_miss_head (o2 :: os2) _ '\\' _ (by simpa using h2b),
                      pyReplace_block o2 os2 [':', '='] _,
                      pyReplace_miss_head (o1 :: os1) _ '\\' _ (by simpa using h1b),
                      pyReplace_skip o1 os1 [':', ':'] [':', '='] _ (by simp [h1c, h1e])]
                  show '\\' :: ([':', '='] ++ escape_colon_for_plpgsql (o1 :: os1) (o2 :: os2) (o3 :: os3) rest3) = _
                  rw [ih rest3 hlen3 hft3]
                  simp [escPlpgSpec_e3e]
                · have hsafe1 : (pyReplace [':', ':'] (o1 :: os1) (c3 :: rest3)).head? ≠ some '=' :=
                    pyReplace_head_safe _ _ _ '=' (by simp)
                      (by simpa using fun he : c3 = '=' => hc3e he)
                      (by simpa using h1e)
                  simp only [escape_colon_for_plpgsql]
                  rw [pyReplace_miss_head [':', ':'] _ '\\' _ (by simp),
                      pyReplace_two_miss ':' ':' (o1 :: os1) ':' (c3 :: rest3)
                        (by simp; intro h'; exact absurd h' hc3),
                      pyReplace_miss_head [':', '='] _ '\\' _ (by simp),
                      pyReplace_two_miss ':' '=' (o2 :: os2) ':' _
                        (fun hp => hsafe1 hp.2),
                      pyReplace_two_hit '\\' ':' (o3 :: os3) _,
                      pyReplace_skip ':' [] ['\\', ':'] (o3 :: os3) _ hcol3,
                      pyReplace_block o3 os3 ['\\', ':'] _,
                      pyReplace_skip o2 os2 [':', '='] ['\\', ':'] _ (by simp [h2b, h2c]),
                      pyReplace_skip o1 os1 [':', ':'] ['\\', ':'] _ (by simp [h1b, h1c])]
                  show ['\\', ':'] ++ escape_colon_for_plpgsql (o1 :: os1) (o2 :: os2) (o3 :: os3) (c3 :: rest3) = _
                  rw [ih (c3 :: rest3) hlen2 hft2]
                  simp [escPlpgSpec_e3o c3 rest3 hc3 hc3e]
        · have hsafe2 : (pyReplace [':', '='] (o2 :: os2)
              (pyReplace [':', ':'] (o1 :: os1) rest)).head? = some ':' → rest.head? = some ':' := by
            intro hh
            rcases pyReplace_head_cases [':', '='] (o2 :: os2)
                (pyReplace [':', ':'] (o1 :: os1) rest) (by simp) with h' | h'
            · rcases pyReplace_head_cases [':', ':'] (o1 :: os1) rest (by simp) with h'' | h''
              · rw [h', h''] at hh; exact hh
              · rw [h', h''] at hh; simp at hh; exact absurd hh h1c
            · rw [h'] at hh; simp at hh; exact absurd hh h2c
          simp only [escape_colon_for_plpgsql]
          rw [pyReplace_two_miss ':' ':' (o1 :: os1) c rest (fun hp => hc hp.1),
              pyReplace_two_miss ':' '=' (o2 :: os2) c _
                (fun hp => hc hp.1),
              pyReplace_two_miss '\\' ':' (o3 :: os3) c _
                (fun hp => hcb ⟨hp.1, hsafe2 hp.2⟩),
              pyReplace_miss_head [':'] _ c _ (by simpa using (Ne.symm hc)),
              pyReplace_miss_head (o3 :: os3) _ c _ (by simpa using hc3m),
              pyReplace_miss_head (o2 :: os2) _ c _ (by simpa using hc2m),
              pyReplace_miss_head (o1 :: os1) _ c _ (by simpa using hc1m)]
          show c :: escape_colon_for_plpgsql (o1 :: os1) (o2 :: os2) (o3 :: os3) rest = _
          rw [ih rest hlen' hft]
          exact (escPlpgSpec_other c rest hc hcb).symm

theorem escPlpg_spec_of_fresh (h1 h2 h3 sql : List Char)
    (hf : FreshTriple h1 h2 h3 sql) :
    escape_colon_for_plpgsql h1 h2 h3 sql = escPlpgSpec sql :=
  escPlpg_spec_aux h1 h2 h3 sql.length sql (le_refl _) hf

/-! ## Claim theorems: escaping -/

/-- C4: with a fresh placeholder (modelling the per-call uuid4 token),
`escape_colon_for_sql` escapes every single (non-doubled) colon with
exactly one backslash and leaves every doubled-colon sequence
untouched: it coincides with the one-pass scanner `escSqlSpec`, whose
only rewriting is `:: ↦ ::` and single `: ↦ \:`.  In particular the
colon of a URL fragment `https://...` is escaped exactly once. -/
theorem escape_colon_for_sql_single_colons (holder sql : List Char)
    (hf : FreshHolder holder sql) :
    escape_colon_for_sql holder sql = escSqlSpec sql :=
  escSql_spec_of_fresh holder sql hf

/-- Witness for C4 on a URL-bearing body: the `//:`'s colon is escaped
exactly once and the cast `::` survives. -/
theorem escape_colon_for_sql_single_colons_witness :
    FreshHolder (toL "#") (toL "https://a::b") ∧
      escape_colon_for_sql (toL "#") (toL "https://a::b") = toL "https\\://a::b" := by
  refine ⟨by decide, ?_⟩
  rw [escape_colon_for_sql_single_colons (toL "#") _ (by decide)]
  decide

/-- C5: with fresh placeholders, `escape_colon_for_plpgsql` leaves
every `::`, `:=` and already-escaped `\:` unmodified and escapes every
other single colon with one backslash, following the protect/escape/
restore pass order of the source: it coincides with the scanner
`escPlpgSpec`. -/
theorem escape_colon_for_plpgsql_protected_tokens (h1 h2 h3 sql : List Char)
    (hf : FreshTriple h1 h2 h3 sql) :
    escape_colon_for_plpgsql h1 h2 h3 sql = escPlpgSpec sql :=
  escPlpg_spec_of_fresh h1 h2 h3 sql hf

/-- Witness for C5: `:=`, `::` and `\:` survive while the lone `:` is
escaped. -/
theorem escape_colon_for_plpgsql_protected_tokens_witness :
    FreshTriple (toL "#") (toL "@") (toL "$") (toL "a := b::int \\: c : d") ∧
      escape_colon_for_plpgsql (toL "#") (toL "@") (toL "$") (toL "a := b::int \\: c : d") =
        toL "a := b::int \\: c \\: d" := by
  refine ⟨by decide, ?_⟩
  rw [escape_colon_for_plpgsql_protected_tokens (toL "#") (toL "@") (toL "$") _ (by decide)]
  decide

/-- C6 counterexample: the escaping result is not independent of the
placeholder the call picked.  When the input happens to contain the
placeholder (here both are the one-character string `u`), the final
restore pass rewrites the literal input text: the output becomes `::`
although the input `u` contains no colon at all, while a placeholder
absent from the input leaves `u` unchanged. -/
theorem escape_colon_holder_collision :
    escape_colon_for_sql (toL "u") (toL "u") ≠ escape_colon_for_sql (toL "#") (toL "u") := by
  decide

/-- C6 (amended): provided the placeholders are fresh — nonempty,
containing no `:`, `\` or `=`, character-disjoint from the input, and
(for the plpgsql variant) pairwise character-disjoint — the output does
not depend on which placeholder was picked, for both escaping
functions. -/
theorem escape_colon_holder_independent :
    (∀ a b sql : List Char, FreshHolder a sql → FreshHolder b sql →
        escape_colon_for_sql a sql = escape_colon_for_sql b sql) ∧
    (∀ a1 a2 a3 b1 b2 b3 sql : List Char,
        FreshTriple a1 a2 a3 sql → FreshTriple b1 b2 b3 sql →
        escape_colon_for_plpgsql a1 a2 a3 sql = escape_colon_for_plpgsql b1 b2 b3 sql) := by
  constructor
  · intro a b sql ha hb
    rw [escSql_spec_of_fresh a sql ha, escSql_spec_of_fresh b sql hb]
  · intro a1 a2 a3 b1 b2 b3 sql ha hb
    rw [escPlpg_spec_of_fresh a1 a2 a3 sql ha, escPlpg_spec_of_fresh b1 b2 b3 sql hb]

/-- Witness for the amended C6 at concrete fresh placeholders. -/
theorem escape_colon_holder_independent_witness :
    escape_colon_for_sql (toL "#") (toL "a:b") = escape_colon_for_sql (toL "@") (toL "a:b") ∧
      escape_colon_for_plpgsql (toL "#") (toL "@") (toL "$") (toL "x:=1") =
        escape_colon_for_plpgsql (toL "%") (toL "^") (toL "&") (toL "x:=1") :=
  ⟨escape_colon_holder_independent.1 _ _ _ (by decide) (by decide),
   escape_colon_holder_independent.2 _ _ _ _ _ _ _ (by decide) (by decide)⟩

/-! ## Claim theorems: storage-parameter codec evaluations -/

/-- C1 (evaluation at the failing input): the numeric coercion never
happens on the spec's example — the source coerces `int(part[1])`,
where `part[1]` is the second character of the raw part, not the split
value, so `param2`'s and `param4`'s values stay the strings `"80"` and
`"80.5"` instead of the numbers 80 and 80.5 promised by the claim, the
docstring and the repository test. -/
theorem parse_storage_parameters_no_coercion_eval :
    parse_storage_parameters (toL "param1, param2=80,param3='test',param4=80.5") =
      .ok [.flag (toL "param1"),
           .pair (toL "param2") (.str (toL "80")),
           .pair (toL "param3") (.str (toL "'test'")),
           .pair (toL "param4") (.str (toL "80.5"))] := by decide

/-- C2 (evaluation at the failing input): `parse_storage_parameters`
is not total — on the one-character part `"="` the read of `part[1]`
raises `IndexError`, which the `except ValueError` handlers do not
catch. -/
theorem parse_storage_parameters_raises_eval :
    parse_storage_parameters (toL "=") = .error .indexError := by decide

/-- C10: parsing the empty string yields the one-element list holding
the empty bare flag (because `"".split(",") == [""]`), and formatting
that result yields `" WITH ()"`, not the empty string. -/
theorem parse_empty_clause_eval :
    parse_storage_parameters [] = .ok [.flag []] ∧
      format_storage_parameters_clause (some [.flag []]) = toL " WITH ()" := by decide

/-- C3 counterexample: the literal composition
`parse(format(parse(s)))` differs from `parse(s)` already for the
plain flag body `"param1"`, because `format` wraps its output in
`" WITH (...)"` and the re-parse keeps that wrapper inside the flag
text. -/
theorem storage_roundtrip_cex :
    (parse_storage_parameters (toL "param1")).bind
        (fun l => parse_storage_parameters (format_storage_parameters_clause (some l)))
      ≠ parse_storage_parameters (toL "param1") := by decide

/-! ## Claim counterexamples: quoting -/

/-- C7 counterexample: `coerce_to_quoted` splits at the first `.` even
when it lies inside double quotes: `"my.schema"` (one already-quoted
name) is split at the quoted dot into two parts instead of being
preserved as one. -/
theorem coerce_to_quoted_quoted_dot_cex :
    coerce_to_quoted (toL "\"my.schema\"") = toL "\"my\".\"schema\"" ∧
      toL "\"my\".\"schema\"" ≠ toL "\"my.schema\"" := by decide

/-- C8 counterexample: `strip_double_quotes` strips more than one
layer — on `""x""` both leading and both trailing quotes are removed,
leaving `x` rather than the `"x"` the claim predicts. -/
theorem strip_double_quotes_two_layers_cex :
    strip_double_quotes (toL "\"\"x\"\"") = toL "x" ∧ toL "x" ≠ toL "\"x\"" := by decide

/-- C9 counterexample: `strip_double_quotes` is not idempotent — on
`"" "abc` one application yields `"abc` (the whitespace trim between
the two strips exposes a new leading quote) and a second application
strips further to `abc`. -/
theorem strip_double_quotes_not_idem_cex :
    strip_double_quotes (strip_double_quotes (toL "\"\" \"abc"))
      ≠ strip_double_quotes (toL "\"\" \"abc") := by decide

/-! ## Strip lemmas -/

theorem dropWhile_head_not (p : Char → Bool) (l : List Char)
    (h : ∀ c, l.head? = some c → p c = false) : l.dropWhile p = l := by
  cases l with
  | nil => rfl
  | cons a t =>
    rw [List.dropWhile_cons, if_neg]
    simp [h a rfl]

theorem head?_dropWhile_not (p : Char → Bool) (l : List Char) :
    ∀ c, (l.dropWhile p).head? = some c → p c = false := by
  induction l with
  | nil => intro c hc; simp at hc
  | cons a t ih =>
    intro c hc
    rw [List.dropWhile_cons] at hc
    by_cases hpa : p a
    · rw [if_pos hpa] at hc; exact ih c hc
    · rw [if_neg hpa] at hc
      simp only [List.head?, Option.some.injEq] at hc
      rw [← hc]
      simpa using hpa

theorem getLast?_dropWhile_of_ne_nil (p : Char → Bool) (l : List Char)
    (h : l.dropWhile p ≠ []) : (l.dropWhile p).getLast? = l.getLast? := by
  induction l with
  | nil => exact absurd rfl h
  | cons a t ih =>
    by_cases hpa : p a
    · rw [List.dropWhile_cons, if_pos hpa] at h ⊢
      cases t with
      | nil => exact absurd rfl h
      | cons b t' => rw [ih h, List.getLast?_cons_cons]
    · rw [List.dropWhile_cons, if_neg hpa]

theorem pyLStripWs_id (s : List Char)
    (h : ∀ c, s.head? = some c → pyIsSpace c = false) : pyLStripWs s = s :=
  dropWhile_head_not _ _ h

theorem pyRStripWs_id (s : List Char)
    (h : ∀ c, s.getLast? = some c → pyIsSpace c = false) : pyRStripWs s = s := by
  rw [pyRStripWs, dropWhile_head_not _ _ (by simpa [List.head?_reverse] using h),
      List.reverse_reverse]

theorem pyStrip_id (s : List Char)
    (hh : ∀ c, s.head? = some c → pyIsSpace c = false)
    (hl : ∀ c, s.getLast? = some c → pyIsSpace c = false) : pyStrip s = s := by
  rw [pyStrip, pyLStripWs_id s hh, pyRStripWs_id s hl]

theorem pyRStripWs_head? (s : List Char) (h : pyRStripWs s ≠ []) :
    (pyRStripWs s).head? = s.head? := by
  rw [pyRStripWs] at h ⊢
  rw [List.head?_reverse, getLast?_dropWhile_of_ne_nil _ _ (by
        intro hx; apply h; rw [hx]; rfl),
      List.getLast?_reverse]

theorem pyStrip_head_not (s : List Char) :
    ∀ c, (pyStrip s).head? = some c → pyIsSpace c = false := by
  intro c hc
  rw [pyStrip] at hc
  by_cases hz : pyRStripWs (pyLStripWs s) = []
  · rw [hz] at hc; simp at hc
  · rw [pyRStripWs_head? _ hz] at hc
    exact head?_dropWhile_not _ _ c hc

theorem pyStrip_getLast_not (s : List Char) :
    ∀ c, (pyStrip s).getLast? = some c → pyIsSpace c = false := by
  intro c hc
  rw [pyStrip, pyRStripWs, List.getLast?_reverse] at hc
  exact head?_dropWhile_not _ _ c hc

theorem pyLStripChar_id (c : Char) (s : List Char)
    (h : ∀ x, s.head? = some x → x ≠ c) : pyLStripChar c s = s := by
  apply dropWhile_head_not
  intro x hx
  simpa using h x hx

theorem pyRStripChar_id (c : Char) (s : List Char)
    (h : ∀ x, s.getLast? = some x → x ≠ c) : pyRStripChar c s = s := by
  rw [pyRStripChar, dropWhile_head_not _ _ (by
        intro x hx
        rw [List.head?_reverse] at hx
        simpa using h x hx),
      List.reverse_reverse]

theorem strip_double_quotes_fixed (t : List Char)
    (hwh : ∀ c, t.head? = some c → pyIsSpace c = false)
    (hwl : ∀ c, t.getLast? = some c → pyIsSpace c = false)
    (hqh : t.head? ≠ some '"')
    (hql : t.getLast? ≠ some '"') :
    strip_double_quotes t = t := by
  rw [strip_double_quotes, pyStrip_id t hwh hwl,
      pyRStripChar_id _ _ (fun x hx he => hql (by rw [← he]; exact hx)),
      pyStrip_id t hwh hwl,
      pyLStripChar_id _ _ (fun x hx he => hqh (by rw [← he]; exact hx)),
      pyStrip_id t hwh hwl]

theorem dropWhile_append_all (p : Char → Bool) (a b : List Char)
    (h : ∀ x ∈ a, p x = true) : (a ++ b).dropWhile p = b.dropWhile p := by
  induction a with
  | nil => rfl
  | cons c a' ih =>
    rw [List.cons_append, List.dropWhile_cons, if_pos (h c (List.mem_cons_self _ _))]
    exact ih (fun x hx => h x (List.mem_cons_of_mem _ hx))

theorem pyRStripChar_append_replicate (c : Char) (x : List Char) (n : Nat)
    (h : ∀ y, x.getLast? = some y → y ≠ c) :
    pyRStripChar c (x ++ List.replicate n c) = x := by
  rw [pyRStripChar, List.reverse_append, List.reverse_replicate,
      dropWhile_append_all _ _ _ (by
        intro y hy
        simp [List.eq_of_mem_replicate hy]),
      dropWhile_head_not _ _ (by
        intro y hy
        rw [List.head?_reverse] at hy
        simpa using h y hy),
      List.reverse_reverse]

theorem pyLStripChar_replicate_append (c : Char) (x : List Char) (m : Nat)
    (h : ∀ y, x.head? = some y → y ≠ c) :
    pyLStripChar c (List.replicate m c ++ x) = x := by
  rw [pyLStripChar,
      dropWhile_append_all _ _ _ (by
        intro y hy
        simp [List.eq_of_mem_replicate hy]),
      dropWhile_head_not _ _ (by
        intro y hy
        simpa using h y hy)]

theorem head?_replicate_append (m : Nat) (c : Char) (x : List Char) :
    ∀ y, (List.replicate m c ++ x).head? = some y → y = c ∨ x.head? = some y := by
  cases m with
  | zero => intro y hy; right; simpa using hy
  | succ m' =>
    intro y hy
    left
    rw [List.replicate_succ, List.cons_append] at hy
    simp only [List.head?, Option.some.injEq] at hy
    exact hy.symm

theorem getLast?_append_replicate (n : Nat) (c : Char) (x : List Char) :
    ∀ y, (x ++ List.replicate n c).getLast? = some y → y = c ∨ x.getLast? = some y := by
  cases n with
  | zero => intro y hy; right; simpa using hy
  | succ n' =>
    intro y hy
    left
    rw [List.getLast?_append_of_ne_nil _ (by simp)] at hy
    rw [← List.head?_reverse, List.reverse_replicate, List.replicate_succ] at hy
    simp only [List.head?, Option.some.injEq] at hy
    exact hy.symm

/-- C8 (amended): `strip_double_quotes` removes ALL consecutive layers
of leading and trailing double quotes, not at most one: wrapping a
string whose ends are neither quotes nor whitespace in any numbers of
quote layers strips them all. -/
theorem strip_double_quotes_all_layers (m n : Nat) (s : List Char) (h0 : s ≠ [])
    (hh : ∀ c, s.head? = some c → pyIsSpace c = false ∧ c ≠ '"')
    (hl : ∀ c, s.getLast? = some c → pyIsSpace c = false ∧ c ≠ '"') :
    strip_double_quotes (List.replicate m '"' ++ s ++ List.replicate n '"') = s := by
  have hne : List.replicate m '"' ++ s ≠ [] := by simp [h0]
  have hwh : ∀ c, (List.replicate m '"' ++ s).head? = some c → pyIsSpace c = false := by
    intro c hc
    rcases head?_replicate_append m '"' s c hc with rfl | hc'
    · decide
    · exact (hh c hc').1
  have hwl : ∀ c, (List.replicate m '"' ++ s).getLast? = some c → pyIsSpace c = false := by
    intro c hc
    rw [List.getLast?_append_of_ne_nil _ h0] at hc
    exact (hl c hc).1
  have hth : ∀ c, (List.replicate m '"' ++ s ++ List.replicate n '"').head? = some c →
      pyIsSpace c = false := by
    intro c hc
    rw [List.append_assoc] at hc
    rcases head?_replicate_append m '"' (s ++ List.replicate n '"') c hc with rfl | hc'
    · decide
    · rw [List.head?_append_of_ne_nil s h0] at hc'
      exact (hh c hc').1
  have htl : ∀ c, (List.replicate m '"' ++ s ++ List.replicate n '"').getLast? = some c →
      pyIsSpace c = false := by
    intro c hc
    rcases getLast?_append_replicate n '"' (List.replicate m '"' ++ s) c hc with rfl | hc'
    · decide
    · exact hwl c hc'
  rw [strip_double_quotes, pyStrip_id _ hth htl,
      pyRStripChar_append_replicate '"' (List.replicate m '"' ++ s) n (by
        intro y hy
        rw [List.getLast?_append_of_ne_nil _ h0] at hy
        exact (hl y hy).2),
      pyStrip_id _ hwh hwl,
      pyLStripChar_replicate_append '"' s m (fun y hy => (hh y hy).2),
      pyStrip_id s (fun c hc => (hh c hc).1) (fun c hc => (hl c hc).1)]

/-- Witness for the amended C8: two quote layers on each side of `x`
are all stripped. -/
theorem strip_double_quotes_all_layers_witness :
    strip_double_quotes (toL "\"\"x\"\"") = toL "x" := by
  have h := strip_double_quotes_all_layers 2 2 (toL "x") (by decide)
    (by decide) (by decide)
  have he : List.replicate 2 '"' ++ toL "x" ++ List.replicate 2 '"' = toL "\"\"x\"\"" := by
    decide
  rw [← he]
  exact h

/-- C9 (amended): `strip_double_quotes` is idempotent on every input
whose first application produces a result that neither starts nor ends
with a double-quote character. -/
theorem strip_double_quotes_conditional_idem (s : List Char)
    (hh : (strip_double_quotes s).head? ≠ some '"')
    (hl : (strip_double_quotes s).getLast? ≠ some '"') :
    strip_double_quotes (strip_double_quotes s) = strip_double_quotes s := by
  apply strip_double_quotes_fixed
  · exact pyStrip_head_not _
  · exact pyStrip_getLast_not _
  · exact hh
  · exact hl

/-- Witness for the amended C9 at a concrete input. -/
theorem strip_double_quotes_conditional_idem_witness :
    strip_double_quotes (strip_double_quotes (toL "\"abc\"")) =
      strip_double_quotes (toL "\"abc\"") :=
  strip_double_quotes_conditional_idem (toL "\"abc\"") (by decide) (by decide)

/-! ## Quoting coercion: first-dot split -/

theorem pySplitFirst_append (sep : Char) (a b : List Char) (h : sep ∉ a) :
    pySplitFirst sep (a ++ sep :: b) = (a, b) := by
  induction a with
  | nil => simp [pySplitFirst]
  | cons c a' ih =>
    have hcs : ¬c = sep := fun he => h (he ▸ List.mem_cons_self _ _)
    rw [List.cons_append]
    simp [pySplitFirst, hcs, ih (fun hm => h (List.mem_cons_of_mem _ hm))]

/-- C7 (amended): `coerce_to_quoted` splits at the FIRST `.` of the
input, whether or not it lies inside double quotes: for any reference
written `a ++ "." ++ b` whose prefix `a` is dot-free, the result
quotes `a` and `b` as schema and name.  In particular a dot inside an
already-quoted part is treated as the boundary whenever it is the
first dot. -/
theorem coerce_to_quoted_first_dot (a b : List Char) (ha : '.' ∉ a) :
    coerce_to_quoted (a ++ '.' :: b) =
      '"' :: strip_double_quotes a ++ '"' :: '.' :: '"' :: strip_double_quotes b ++ ['"'] := by
  have hm : '.' ∈ a ++ '.' :: b := List.mem_append_right a (List.mem_cons_self _ _)
  unfold coerce_to_quoted
  rw [if_pos hm]
  simp [pySplitFirst_append '.' a b ha]

/-- Witness for the amended C7: the already-quoted single name
`"my.schema"` is split at its (quoted) dot. -/
theorem coerce_to_quoted_first_dot_witness :
    coerce_to_quoted (toL "\"my.schema\"") = toL "\"my\".\"schema\"" := by
  have he : toL "\"my.schema\"" = toL "\"my" ++ '.' :: toL "schema\"" := by decide
  rw [he, coerce_to_quoted_first_dot (toL "\"my") (toL "schema\"") (by decide)]
  decide

/-! ## Round trip for the storage-parameter codec -/

/-- Tameness of one comma-part: if it is a `key=value` part it must
have at least two characters with a non-digit second character (so the
source's character-indexed coercion stays inert), and its stripped key
must be nonempty with non-digit first and second characters (so the
coercion also stays inert when the formatted clause is re-parsed). -/
def tamePart (p : List Char) : Bool :=
  if '=' ∈ p then
    match p with
    | _ :: c1 :: _ =>
      !pyDigit c1 &&
        (!(pyStrip (pySplitFirst '=' p).1).isEmpty &&
          !pyDigit ((pyStrip (pySplitFirst '=' p).1).headD 'x') &&
          ((pyStrip (pySplitFirst '=' p).1).tail.isEmpty ||
            !pyDigit ((pyStrip (pySplitFirst '=' p).1).tail.headD 'x')))
    | _ => false
  else true

/-- Tameness of a whole clause body: every comma-part is tame. -/
def tameBody (s : List Char) : Bool := (pySplit ',' s).all tamePart

/-- Tameness of a parsed parameter, as produced by parsing a tame
part. -/
def tameItem : StorageParameter → Bool
  | .flag w => !decide (',' ∈ w) && !decide ('=' ∈ w) && decide (pyStrip w = w)
  | .pair k (.str v) =>
      !decide (',' ∈ k) && !decide ('=' ∈ k) && !decide (',' ∈ v) &&
        decide (pyStrip k = k) && decide (pyStrip v = v) &&
        !k.isEmpty && !pyDigit (k.headD 'x') &&
        (k.tail.isEmpty || !pyDigit (k.tail.headD 'x'))
  | .pair _ _ => false

/-- The parenthesized body of a formatted clause: the text strictly
between the 7-character prefix `" WITH ("` and the final `")"`. -/
def clauseBody (t : List Char) : List Char := (t.drop 7).dropLast

theorem pyStrip_idem (s : List Char) : pyStrip (pyStrip s) = pyStrip s :=
  pyStrip_id _ (pyStrip_head_not _) (pyStrip_getLast_not _)

theorem pyStrip_cons_space (t : List Char) : pyStrip (' ' :: t) = pyStrip t := by
  rw [pyStrip, pyLStripWs, List.dropWhile_cons, if_pos (by decide)]
  rfl

theorem mem_of_mem_pyStrip {x : Char} {s : List Char} (h : x ∈ pyStrip s) : x ∈ s := by
  rw [pyStrip, pyRStripWs] at h
  rw [List.mem_reverse] at h
  have h1 := (List.dropWhile_sublist (p := pyIsSpace)).subset h
  rw [List.mem_reverse] at h1
  exact (List.dropWhile_sublist (p := pyIsSpace)).subset h1

theorem pySplitFirst_fst_not_sep (sep : Char) (s : List Char) :
    sep ∉ (pySplitFirst sep s).1 := by
  induction s with
  | nil => simp [pySplitFirst]
  | cons c rest ih =>
    by_cases h : c = sep
    · simp [pySplitFirst, h]
    · simp [pySplitFirst, h, ih]
      exact fun he => h he.symm

theorem pySplitFirst_fst_subset (sep : Char) (s : List Char) :
    ∀ x ∈ (pySplitFirst sep s).1, x ∈ s := by
  induction s with
  | nil => simp [pySplitFirst]
  | cons c rest ih =>
    intro x hx
    by_cases h : c = sep
    · simp [pySplitFirst, h] at hx
    · simp only [pySplitFirst, if_neg h] at hx
      rcases List.mem_cons.mp hx with rfl | hx'
      · exact List.mem_cons_self _ _
      · exact List.mem_cons_of_mem _ (ih x hx')

theorem pySplitFirst_snd_subset (sep : Char) (s : List Char) :
    ∀ x ∈ (pySplitFirst sep s).2, x ∈ s := by
  induction s with
  | nil => simp [pySplitFirst]
  | cons c rest ih =>
    intro x hx
    by_cases h : c = sep
    · simp only [pySplitFirst, if_pos h] at hx
      exact List.mem_cons_of_mem _ hx
    · simp only [pySplitFirst, if_neg h] at hx
      exact List.mem_cons_of_mem _ (ih x hx)

theorem pySplit_ne_nil (sep : Char) (s : List Char) : pySplit sep s ≠ [] := by
  cases s with
  | nil => simp [pySplit]
  | cons c rest =>
    by_cases h : c = sep
    · simp [pySplit, h]
    · cases hps : pySplit sep rest <;> simp [pySplit, h, hps]

theorem pySplit_not_mem (sep : Char) (s : List Char) :
    ∀ p ∈ pySplit sep s, sep ∉ p := by
  induction s with
  | nil =>
    intro p hp
    simp [pySplit] at hp
    simp [hp]
  | cons c rest ih =>
    intro p hp
    by_cases h : c = sep
    · simp only [pySplit, if_pos h] at hp
      rcases List.mem_cons.mp hp with rfl | hp'
      · simp
      · exact ih p hp'
    · cases hps : pySplit sep rest with
      | nil => exact absurd hps (pySplit_ne_nil sep rest)
      | cons w ws =>
        simp only [pySplit, if_neg h, hps] at hp
        rcases List.mem_cons.mp hp with rfl | hp'
        · intro hs
          rcases List.mem_cons.mp hs with he | hw
          · exact h he.symm
          · exact ih w (by rw [hps]; exact List.mem_cons_self _ _) hw
        · exact ih p (by rw [hps]; exact List.mem_cons_of_mem _ hp')

theorem pySplit_no_sep (sep : Char) (a : List Char) (h : sep ∉ a) :
    pySplit sep a = [a] := by
  induction a with
  | nil => rfl
  | cons c a' ih =>
    have hcs : ¬c = sep := fun he => h (he ▸ List.mem_cons_self _ _)
    simp [pySplit, hcs, ih (fun hm => h (List.mem_cons_of_mem _ hm))]

theorem pySplit_append (sep : Char) (a b : List Char) (h : sep ∉ a) :
    pySplit sep (a ++ sep :: b) = a :: pySplit sep b := by
  induction a with
  | nil => simp [pySplit]
  | cons c a' ih =>
    have hcs : ¬c = sep := fun he => h (he ▸ List.mem_cons_self _ _)
    rw [List.cons_append]
    simp [pySplit, hcs, ih (fun hm => h (List.mem_cons_of_mem _ hm))]

theorem pySplit_join (rest : List (List Char)) :
    ∀ r0 : List Char, ',' ∉ r0 → (∀ r ∈ rest, ',' ∉ r) →
      pySplit ',' (pyJoin [',', ' '] (r0 :: rest)) =
        r0 :: rest.map (fun r => ' ' :: r) := by
  induction rest with
  | nil =>
    intro r0 h0 _
    simp [pyJoin, pySplit_no_sep ',' r0 h0]
  | cons r1 rest' ih =>
    intro r0 h0 hall
    show pySplit ',' (r0 ++ [',', ' '] ++ pyJoin [',', ' '] (r1 :: rest')) = _
    rw [List.append_assoc]
    simp only [List.cons_append, List.nil_append]
    rw [pySplit_append ',' r0 (' ' :: pyJoin [',', ' '] (r1 :: rest')) h0]
    have hj : ' ' :: pyJoin [',', ' '] (r1 :: rest') =
        pyJoin [',', ' '] ((' ' :: r1) :: rest') := by
      cases rest' with
      | nil => rfl
      | cons r2 rest'' => simp [pyJoin]
    rw [hj, ih (' ' :: r1)
        (by
          intro hmem
          rcases List.mem_cons.mp hmem with he | hm
          · exact absurd he (by decide)
          · exact hall r1 (List.mem_cons_self _ _) hm)
        (fun r hr => hall r (List.mem_cons_of_mem _ hr))]
    rfl

theorem parsePart_flag (w : List Char) (hw : '=' ∉ w) (hs : pyStrip w = w) :
    parsePart w = .ok (.flag w) := by
  unfold parsePart
  rw [if_neg hw, hs]

theorem parsePart_flag_sp (w : List Char) (hw : '=' ∉ w) (hs : pyStrip w = w) :
    parsePart (' ' :: w) = .ok (.flag w) := by
  have hw' : '=' ∉ ' ' :: w := by
    intro hm
    rcases List.mem_cons.mp hm with he | hx
    · exact absurd he (by decide)
    · exact hw hx
  unfold parsePart
  rw [if_neg hw', pyStrip_cons_space, hs]

theorem parsePart_pair (k v : List Char) (hk : k ≠ []) (hke : '=' ∉ k)
    (hd0 : pyDigit (k.headD 'x') = false)
    (hd1 : (k.tail.isEmpty || !pyDigit (k.tail.headD 'x')) = true)
    (hsk : pyStrip k = k) (hsv : pyStrip v = v) :
    parsePart (k ++ '=' :: v) = .ok (.pair k (.str v)) := by
  cases k with
  | nil => exact absurd rfl hk
  | cons k0 kt =>
    cases kt with
    | nil =>
      have h1 : pyIntOfChar '=' = none := by decide
      have h2 : pyFloatOfChar '=' = none := by decide
      have h3 : pySplitFirst '=' (k0 :: '=' :: v) = ([k0], v) :=
        pySplitFirst_append '=' [k0] v hke
      have hm : '=' ∈ (k0 :: ([] : List Char)) ++ '=' :: v := by simp
      simp [parsePart, hm, h1, h2, h3, hsk, hsv]
    | cons k1 kt' =>
      have hd1' : pyDigit k1 = false := by simpa using hd1
      have h1 : pyIntOfChar k1 = none := by simp [pyIntOfChar, hd1']
      have h2 : pyFloatOfChar k1 = none := by simp [pyFloatOfChar, hd1']
      have h3 : pySplitFirst '=' (k0 :: k1 :: (kt' ++ '=' :: v)) = (k0 :: k1 :: kt', v) :=
        pySplitFirst_append '=' (k0 :: k1 :: kt') v hke
      have hm : '=' ∈ (k0 :: k1 :: kt') ++ '=' :: v := by simp
      simp [parsePart, hm, h1, h2, h3, hsk, hsv]

theorem parsePart_pair_sp (k v : List Char) (hk : k ≠ []) (hke : '=' ∉ k)
    (hd0 : pyDigit (k.headD 'x') = false)
    (hsk : pyStrip k = k) (hsv : pyStrip v = v) :
    parsePart (' ' :: (k ++ '=' :: v)) = .ok (.pair k (.str v)) := by
  cases k with
  | nil => exact absurd rfl hk
  | cons k0 kt =>
    have hd0' : pyDigit k0 = false := by simpa using hd0
    have h1 : pyIntOfChar k0 = none := by simp [pyIntOfChar, hd0']
    have h2 : pyFloatOfChar k0 = none := by simp [pyFloatOfChar, hd0']
    have hke' : '=' ∉ ' ' :: k0 :: kt := by
      intro hm
      rcases List.mem_cons.mp hm with he | hx
      · exact absurd he (by decide)
      · exact hke hx
    have h3 : pySplitFirst '=' (' ' :: k0 :: (kt ++ '=' :: v)) = (' ' :: k0 :: kt, v) :=
      pySplitFirst_append '=' (' ' :: k0 :: kt) v hke'
    have h4 : pyStrip (' ' :: k0 :: kt) = k0 :: kt := by
      rw [pyStrip_cons_space]; exact hsk
    have hm : '=' ∈ ' ' :: ((k0 :: kt) ++ '=' :: v) := by simp
    simp [parsePart, hm, h1, h2, h3, h4, hsv]

theorem tameItem_flag_elim (w : List Char) (h : tameItem (.flag w) = true) :
    ',' ∉ w ∧ '=' ∉ w ∧ pyStrip w = w := by
  rw [show tameItem (.flag w) =
      (!decide (',' ∈ w) && !decide ('=' ∈ w) && decide (pyStrip w = w)) from rfl] at h
  simp only [Bool.and_eq_true] at h
  obtain ⟨⟨hA, hB⟩, hC⟩ := h
  exact ⟨by simpa using hA, by simpa using hB, by simpa using hC⟩

theorem tameItem_flag_intro (w : List Char) (h1 : ',' ∉ w) (h2 : '=' ∉ w)
    (h3 : pyStrip w = w) : tameItem (.flag w) = true := by
  show (!decide (',' ∈ w) && !decide ('=' ∈ w) && decide (pyStrip w = w)) = true
  rw [show (!decide (',' ∈ w)) = true from by simp [h1],
      show (!decide ('=' ∈ w)) = true from by simp [h2],
      show decide (pyStrip w = w) = true from by simp [h3]]
  rfl

theorem tameItem_pair_elim (k : List Char) (v : PyVal)
    (h : tameItem (.pair k v) = true) :
    ∃ vs, v = .str vs ∧ ',' ∉ k ∧ '=' ∉ k ∧ ',' ∉ vs ∧ pyStrip k = k ∧ pyStrip vs = vs ∧
      k ≠ [] ∧ pyDigit (k.headD 'x') = false ∧
      (k.tail.isEmpty || !pyDigit (k.tail.headD 'x')) = true := by
  cases v with
  | str vs =>
    rw [show tameItem (.pair k (.str vs)) =
        (!decide (',' ∈ k) && !decide ('=' ∈ k) && !decide (',' ∈ vs) &&
         decide (pyStrip k = k) && decide (pyStrip vs = vs) && !k.isEmpty &&
         !pyDigit (k.headD 'x') &&
         (k.tail.isEmpty || !pyDigit (k.tail.headD 'x'))) from rfl] at h
    simp only [Bool.and_eq_true] at h
    obtain ⟨⟨⟨⟨⟨⟨⟨hA, hB⟩, hC⟩, hD⟩, hE⟩, hF⟩, hG⟩, hH⟩ := h
    refine ⟨vs, rfl, by simpa using hA, by simpa using hB, by simpa using hC,
      by simpa using hD, by simpa using hE, by simpa using hF, by simpa using hG, hH⟩
  | int n => simp [tameItem] at h
  | float d => simp [tameItem] at h

theorem tameItem_pair_intro (k vs : List Char)
    (h1 : ',' ∉ k) (h2 : '=' ∉ k) (h3 : ',' ∉ vs)
    (h4 : pyStrip k = k) (h5 : pyStrip vs = vs) (h6 : k ≠ [])
    (h7 : pyDigit (k.headD 'x') = false)
    (h8 : (k.tail.isEmpty || !pyDigit (k.tail.headD 'x')) = true) :
    tameItem (.pair k (.str vs)) = true := by
  show (!decide (',' ∈ k) && !decide ('=' ∈ k) && !decide (',' ∈ vs) &&
      decide (pyStrip k = k) && decide (pyStrip vs = vs) && !k.isEmpty &&
      !pyDigit (k.headD 'x') &&
      (k.tail.isEmpty || !pyDigit (k.tail.headD 'x'))) = true
  rw [show (!decide (',' ∈ k)) = true from by simp [h1],
      show (!decide ('=' ∈ k)) = true from by simp [h2],
      show (!decide (',' ∈ vs)) = true from by simp [h3],
      show decide (pyStrip k = k) = true from by simp [h4],
      show decide (pyStrip vs = vs) = true from by simp [h5],
      show (!k.isEmpty) = true from by simp [h6],
      show (!pyDigit (k.headD 'x')) = true from by rw [h7]; rfl, h8]
  rfl

theorem tamePart_single (c0 : Char) (hm : '=' ∈ [c0]) : tamePart [c0] = false := by
  rw [show tamePart [c0] = (if '=' ∈ [c0] then false else true) from rfl, if_pos hm]

theorem tamePart_pair_elim (c0 c1 : Char) (rest' : List Char)
    (hm : '=' ∈ c0 :: c1 :: rest')
    (ht : tamePart (c0 :: c1 :: rest') = true) :
    pyDigit c1 = false ∧
      pyStrip (pySplitFirst '=' (c0 :: c1 :: rest')).1 ≠ [] ∧
      pyDigit ((pyStrip (pySplitFirst '=' (c0 :: c1 :: rest')).1).headD 'x') = false ∧
      ((pyStrip (pySplitFirst '=' (c0 :: c1 :: rest')).1).tail.isEmpty ||
        !pyDigit ((pyStrip (pySplitFirst '=' (c0 :: c1 :: rest')).1).tail.headD 'x')) = true := by
  rw [show tamePart (c0 :: c1 :: rest') =
      (if '=' ∈ c0 :: c1 :: rest' then
        (!pyDigit c1 &&
          (!(pyStrip (pySplitFirst '=' (c0 :: c1 :: rest')).1).isEmpty &&
            !pyDigit ((pyStrip (pySplitFirst '=' (c0 :: c1 :: rest')).1).headD 'x') &&
            ((pyStrip (pySplitFirst '=' (c0 :: c1 :: rest')).1).tail.isEmpty ||
              !pyDigit ((pyStrip (pySplitFirst '=' (c0 :: c1 :: rest')).1).tail.headD 'x'))))
       else true) from rfl, if_pos hm] at ht
  simp only [Bool.and_eq_true] at ht
  obtain ⟨h1, ⟨hA, hB⟩, hC⟩ := ht
  exact ⟨by simpa using h1, by simpa using hA, by simpa using hB, hC⟩

theorem parsePart_tame (p : List Char) (it : StorageParameter)
    (hp : parsePart p = .ok it) (ht : tamePart p = true) (hc : ',' ∉ p) :
    tameItem it = true := by
  by_cases hm : '=' ∈ p
  · cases p with
    | nil => simp at hm
    | cons c0 rest =>
      cases rest with
      | nil =>
        rw [tamePart_single c0 hm] at ht
        exact absurd ht (by simp)
      | cons c1 rest' =>
        obtain ⟨hd1, hkne, hkd0, hkor⟩ := tamePart_pair_elim c0 c1 rest' hm ht
        have h1 : pyIntOfChar c1 = none := by simp [pyIntOfChar, hd1]
        have h2 : pyFloatOfChar c1 = none := by simp [pyFloatOfChar, hd1]
        unfold parsePart at hp
        rw [if_pos hm] at hp
        simp only [List.getElem?_cons_zero, List.getElem?_cons_succ, h1, h2] at hp
        have hit : it = .pair (pyStrip (pySplitFirst '=' (c0 :: c1 :: rest')).1)
            (.str (pyStrip (pySplitFirst '=' (c0 :: c1 :: rest')).2)) := by
          injection hp with h'
          exact h'.symm
        subst hit
        apply tameItem_pair_intro
        · intro hmem
          exact hc (pySplitFirst_fst_subset '=' _ ',' (mem_of_mem_pyStrip hmem))
        · intro hmem
          exact pySplitFirst_fst_not_sep '=' _ (mem_of_mem_pyStrip hmem)
        · intro hmem
          exact hc (pySplitFirst_snd_subset '=' _ ',' (mem_of_mem_pyStrip hmem))
        · exact pyStrip_idem _
        · exact pyStrip_idem _
        · exact hkne
        · exact hkd0
        · exact hkor
  · unfold parsePart at hp
    rw [if_neg hm] at hp
    have hit : it = .flag (pyStrip p) := by
      injection hp with h'
      exact h'.symm
    subst hit
    apply tameItem_flag_intro
    · intro hmem; exact hc (mem_of_mem_pyStrip hmem)
    · intro hmem; exact hm (mem_of_mem_pyStrip hmem)
    · exact pyStrip_idem p

theorem parsePart_render (it : StorageParameter) (h : tameItem it = true) :
    parsePart (renderParam it) = .ok it := by
  cases it with
  | flag w =>
    obtain ⟨h1, h2, h3⟩ := tameItem_flag_elim w h
    exact parsePart_flag w h2 h3
  | pair k v =>
    obtain ⟨vs, rfl, h1, h2, h3, h4, h5, h6, h7, h8⟩ := tameItem_pair_elim k v h
    exact parsePart_pair k vs h6 h2 h7 h8 h4 h5

theorem parsePart_render_sp (it : StorageParameter) (h : tameItem it = true) :
    parsePart (' ' :: renderParam it) = .ok it := by
  cases it with
  | flag w =>
    obtain ⟨h1, h2, h3⟩ := tameItem_flag_elim w h
    exact parsePart_flag_sp w h2 h3
  | pair k v =>
    obtain ⟨vs, rfl, h1, h2, h3, h4, h5, h6, h7, h8⟩ := tameItem_pair_elim k v h
    exact parsePart_pair_sp k vs h6 h2 h7 h4 h5

theorem renderParam_no_comma (it : StorageParameter) (h : tameItem it = true) :
    ',' ∉ renderParam it := by
  cases it with
  | flag w => exact (tameItem_flag_elim w h).1
  | pair k v =>
    obtain ⟨vs, rfl, h1, h2, h3, -, -, -, -, -⟩ := tameItem_pair_elim k v h
    intro hmem
    rcases List.mem_append.mp hmem with hk | hv
    · exact h1 hk
    · rcases List.mem_cons.mp hv with he | hvs
      · exact absurd he (by decide)
      · exact h3 hvs

theorem parseParts_cons (p : List Char) (ps : List (List Char)) :
    parseParts (p :: ps) =
      (parsePart p).bind (fun it => (parseParts ps).bind (fun l => .ok (it :: l))) := rfl

theorem parseParts_render_sp (rest : List StorageParameter)
    (h : ∀ it ∈ rest, tameItem it = true) :
    parseParts (rest.map (fun it => ' ' :: renderParam it)) = .ok rest := by
  induction rest with
  | nil => rfl
  | cons it rest' ih =>
    rw [List.map_cons, parseParts_cons,
        parsePart_render_sp it (h it (List.mem_cons_self _ _)),
        ih (fun x hx => h x (List.mem_cons_of_mem _ hx))]
    rfl

theorem parse_ok_ne_nil (s : List Char) (l : List StorageParameter)
    (hp : parse_storage_parameters s = .ok l) : l ≠ [] := by
  rw [parse_storage_parameters] at hp
  cases hsp : pySplit ',' s with
  | nil => exact absurd hsp (pySplit_ne_nil ',' s)
  | cons p ps =>
    rw [hsp, parseParts_cons] at hp
    cases hp1 : parsePart p with
    | error e => rw [hp1] at hp; simp [Except.bind] at hp
    | ok it =>
      rw [hp1] at hp
      cases hp2 : parseParts ps with
      | error e => rw [hp2] at hp; simp [Except.bind] at hp
      | ok l' =>
        rw [hp2] at hp
        simp only [Except.bind, Except.ok.injEq] at hp
        rw [← hp]
        simp

theorem parseParts_tame (ps : List (List Char)) :
    ∀ (l : List StorageParameter), parseParts ps = .ok l →
      (∀ p ∈ ps, tamePart p = true) → (∀ p ∈ ps, ',' ∉ p) →
      ∀ it ∈ l, tameItem it = true := by
  induction ps with
  | nil =>
    intro l hp _ _ it hit
    simp only [parseParts, Except.ok.injEq] at hp
    rw [← hp] at hit
    simp at hit
  | cons p ps' ih =>
    intro l hp htame hcomma it hit
    rw [parseParts_cons] at hp
    cases hp1 : parsePart p with
    | error e => rw [hp1] at hp; simp [Except.bind] at hp
    | ok it0 =>
      rw [hp1] at hp
      cases hp2 : parseParts ps' with
      | error e => rw [hp2] at hp; simp [Except.bind] at hp
      | ok l' =>
        rw [hp2] at hp
        simp only [Except.bind, Except.ok.injEq] at hp
        rw [← hp] at hit
        rcases List.mem_cons.mp hit with rfl | hit'
        · exact parsePart_tame p it hp1 (htame p (List.mem_cons_self _ _))
            (hcomma p (List.mem_cons_self _ _))
        · exact ih l' hp2 (fun q hq => htame q (List.mem_cons_of_mem _ hq))
            (fun q hq => hcomma q (List.mem_cons_of_mem _ hq)) it hit'

/-- C3 (amended): for every clause body `s` whose parse succeeds and
whose comma-parts are tame (see `tamePart`), re-parsing the
parenthesized body of the formatted clause — the text strictly between
`" WITH ("` and `")"` — reproduces `parse_storage_parameters s`
exactly, order included. -/
theorem storage_roundtrip_amended (s : List Char) (l : List StorageParameter)
    (hp : parse_storage_parameters s = .ok l) (ht : tameBody s = true) :
    parse_storage_parameters (clauseBody (format_storage_parameters_clause (some l))) =
      .ok l := by
  have htame : ∀ it ∈ l, tameItem it = true := by
    apply parseParts_tame (pySplit ',' s) l hp
    · intro p hpm
      rw [tameBody] at ht
      exact List.all_eq_true.mp ht p hpm
    · exact pySplit_not_mem ',' s
  cases l with
  | nil => exact absurd rfl (parse_ok_ne_nil s [] hp)
  | cons it0 rest =>
    have hform : format_storage_parameters_clause (some (it0 :: rest)) =
        toL " WITH (" ++ pyJoin (toL ", ") ((it0 :: rest).map renderParam) ++ [')'] := rfl
    rw [hform, clauseBody, List.append_assoc,
        show (7 : Nat) = (toL " WITH (").length from rfl,
        List.drop_left, List.dropLast_concat]
    show parseParts (pySplit ',' (pyJoin (toL ", ") ((it0 :: rest).map renderParam))) = _
    rw [show toL ", " = [',', ' '] from rfl, List.map_cons]
    rw [pySplit_join (rest.map renderParam) (renderParam it0)
          (renderParam_no_comma it0 (htame it0 (List.mem_cons_self _ _)))
          (by
            intro r hr
            obtain ⟨x, hx, rfl⟩ := List.mem_map.mp hr
            exact renderParam_no_comma x (htame x (List.mem_cons_of_mem _ hx)))]
    rw [parseParts_cons, parsePart_render it0 (htame it0 (List.mem_cons_self _ _))]
    rw [show (rest.map renderParam).map (fun r => ' ' :: r) =
        rest.map (fun x => ' ' :: renderParam x) from by rw [List.map_map]; rfl]
    rw [parseParts_render_sp rest (fun x hx => htame x (List.mem_cons_of_mem _ hx))]
    rfl

/-- Witness for the amended C3 on the body `"param1, a=b"`. -/
theorem storage_roundtrip_amended_witness :
    parse_storage_parameters (clauseBody (format_storage_parameters_clause
        (some [.flag (toL "param1"), .pair (toL "a") (.str (toL "b"))]))) =
      .ok [.flag (toL "param1"), .pair (toL "a") (.str (toL "b"))] :=
  storage_roundtrip_amended (toL "param1, a=b") _ (by decide) (by decide)
